import Mathlib

/-!
Shallow embedding of the streaming / presentation pipeline of
`core/commands/cat.go` and `core/commands/filestore.go` (go-ipfs fork).

Machine integers (`uint64`) are modelled as `Nat` with explicit reduction
modulo `2 ^ 64` at the one place an addition can overflow; channels are
modelled as the trace of events (`send v` / `close`) a producer goroutine
performs on its output channel; a `context.Context` is modelled by the
number of `select` boundaries that observe "not done" before `ctx.Done()`
fires (the Go `select` nondeterminism when both cases are ready is resolved
towards the `Done` branch, which is the behaviour the spec describes).
-/

namespace GoIpfs

/-! ## cat.go -/

/-- `const progressBarMinSize = 1024 * 1024 * 8` (cat.go line 16). -/
def progressBarMinSize : Nat := 1024 * 1024 * 8

/-- The two emission plans `CatCmd.PostRun[cmds.CLI]` can choose between:
the direct unthrottled `cmds.Copy` path, or the path that wraps the reader
with `progressBarForReader` before emitting. -/
inductive CatPlan : Type
  | directCopy
  | progressWrapped
deriving DecidableEq, Repr

/-- The branch taken by the goroutine in `CatCmd.PostRun[cmds.CLI]`
(cat.go lines 72-110): `if res.Length() > 0 && res.Length() < progressBarMinSize`
performs the direct `cmds.Copy`; otherwise the progress-bar path runs. -/
def catPostRunPlan (length : Nat) : CatPlan :=
  if 0 < length ∧ length < progressBarMinSize then .directCopy else .progressWrapped

/-- A reader as returned by `coreunix.Cat`: all the `cat` helper reads from
it is its declared `Size()`. -/
structure DagReader : Type where
  size : Nat
deriving DecidableEq, Repr

/-- `uint64` modulus: the accumulator `length` in `cat` is a `uint64`. -/
def uint64Mod : Nat := 2 ^ 64

/-- The triple returned by `cat` (cat.go lines 118-132): Go returns
`([]io.Reader, uint64, error)`; `readers = none` models the literal `nil`
slice returned on the error path. -/
structure CatResult : Type where
  readers : Option (List DagReader)
  length : Nat
  err : Option String
deriving DecidableEq, Repr

/-- The loop body of `cat` (cat.go lines 121-130): walk the paths in order,
look each one up, fail fast on the first error returning `(nil, 0, err)`,
otherwise append the reader and add its size into the `uint64` accumulator. -/
def catLoop (lookup : String → Except String DagReader) :
    List String → List DagReader → Nat → CatResult
  | [], acc, len => { readers := some acc, length := len, err := none }
  | fpath :: rest, acc, len =>
    match lookup fpath with
    | .error e => { readers := none, length := 0, err := some e }
    | .ok read => catLoop lookup rest (acc ++ [read]) ((len + read.size) % uint64Mod)

/-- `func cat(ctx, node, paths) ([]io.Reader, uint64, error)` with the
external `coreunix.Cat` collaborator abstracted as `lookup`. -/
def cat (lookup : String → Except String DagReader) (paths : List String) : CatResult :=
  catLoop lookup paths [] 0

/-! ## filestore.go — channel traces -/

/-- An event a producer goroutine performs on its output channel:
a send of a value, or the (deferred) close. -/
inductive ChanEvent (α : Type) : Type
  | send (v : α)
  | close
deriving DecidableEq, Repr

/-- The values sent on a channel trace, in order. -/
def sentValues {α : Type} : List (ChanEvent α) → List α
  | [] => []
  | .send v :: t => v :: sentValues t
  | .close :: t => sentValues t

/-- How many times the channel is closed along a trace. -/
def closeCount {α : Type} : List (ChanEvent α) → Nat
  | [] => 0
  | .send _ :: t => closeCount t
  | .close :: t => closeCount t + 1

/-- Status field of `filestore.ListRes`; only `StatusOtherError` is
referenced by the code under verification, the others come from the
`filestore verify` help text. -/
inductive FsStatus : Type
  | statusOk
  | statusOtherError
deriving DecidableEq, Repr

/-- `filestore.ListRes` as this code observes it: the `Status` and
`ErrorMsg` fields plus an opaque record payload (what `FormatLong`
prints); the payload is carried around untouched. -/
structure ListRes : Type where
  status : FsStatus
  errorMsg : String
  payload : String
deriving DecidableEq, Repr

/-- `RefWrapper` as filled in by `dupsFileStore` (filestore.go lines 219,
223): either the `Ref` field or the `Err` field is set. -/
structure RefWrapper : Type where
  ref : String
  err : String
deriving DecidableEq, Repr

/-! ### perKeyActionToChan (filestore.go lines 267-289)

The goroutine walks `args` in order.  For each arg it calls `cid.Decode`;
on failure it performs a *plain* send of a synthetic
`ListRes{Status: StatusOtherError, ErrorMsg: fmt.Sprintf("%s: %v", arg, err)}`
and continues.  On success it invokes `action` and then sends the result
under a `select` that also watches `ctx.Done()`; if `Done` is observed the
goroutine returns and the deferred `close(out)` runs.

`cancelAfter` is the number of `select` boundaries that observe "not done"
before the context fires; `sel` counts the boundaries passed so far. -/

/-- The synthetic error result built for an unparseable arg
(filestore.go lines 274-277). -/
def parseErrRes (arg : String) (e : String) : ListRes :=
  { status := .statusOtherError, errorMsg := arg ++ ": " ++ e, payload := "" }

/-- Trace of the `perKeyActionToChan` goroutine. -/
def perKeyGo {κ : Type} (decode : String → Except String κ) (action : κ → ListRes)
    (cancelAfter : Nat) : List String → Nat → List (ChanEvent ListRes)
  | [], _ => [.close]
  | arg :: rest, sel =>
    match decode arg with
    | .error e => .send (parseErrRes arg e) :: perKeyGo decode action cancelAfter rest sel
    | .ok c =>
      if sel < cancelAfter then
        .send (action c) :: perKeyGo decode action cancelAfter rest (sel + 1)
      else
        [.close]

/-- `func perKeyActionToChan(args, action, ctx) <-chan interface{}`:
the full trace of its producer goroutine. -/
def perKeyActionToChan {κ : Type} (decode : String → Except String κ)
    (action : κ → ListRes) (args : List String) (cancelAfter : Nat) :
    List (ChanEvent ListRes) :=
  perKeyGo decode action cancelAfter args 0

/-- The cids on which `action` is invoked during `perKeyActionToChan`,
in order.  The invocation `r := action(c)` happens *before* the `select`,
so the arg whose send boundary observes `Done` has still had its action
run (filestore.go lines 280-285). -/
def perKeyInvoked {κ : Type} (decode : String → Except String κ)
    (cancelAfter : Nat) : List String → Nat → List κ
  | [], _ => []
  | arg :: rest, sel =>
    match decode arg with
    | .error _ => perKeyInvoked decode cancelAfter rest sel
    | .ok c =>
      if sel < cancelAfter then c :: perKeyInvoked decode cancelAfter rest (sel + 1)
      else [c]

/-! ### listResToChan (filestore.go lines 248-265)

The goroutine polls `next()` until it yields `nil`; each non-nil result is
sent under a `select` watching `ctx.Done()`.  `next` is modelled by the
finite list of non-nil results it yields before returning `nil`. -/

/-- Trace of the `listResToChan` goroutine. -/
def listResGo (cancelAfter : Nat) : List ListRes → Nat → List (ChanEvent ListRes)
  | [], _ => [.close]
  | r :: rest, sel =>
    if sel < cancelAfter then .send r :: listResGo cancelAfter rest (sel + 1)
    else [.close]

/-- `func listResToChan(next, ctx) <-chan interface{}`: the full trace of
its producer goroutine. -/
def listResToChan (results : List ListRes) (cancelAfter : Nat) :
    List (ChanEvent ListRes) :=
  listResGo cancelAfter results 0

/-! ### dupsFileStore producer (filestore.go lines 211-226)

The goroutine ranges over the keys channel; for each cid it calls
`fs.MainBlockstore().Has(cid)`.  On error it sends a `RefWrapper{Err: ...}`
and returns; if `have` it sends `RefWrapper{Ref: cid.String()}`.  Both
sends are plain (the channel has capacity 128); `close(out)` is deferred. -/

/-- Trace of the `dupsFileStore` goroutine, with the external blockstore
`Has` and the cid pretty-printer abstracted. -/
def dupsGo {κ : Type} (has : κ → Except String Bool) (cidStr : κ → String) :
    List κ → List (ChanEvent RefWrapper)
  | [] => [.close]
  | c :: rest =>
    match has c with
    | .error e => [.send { ref := "", err := e }, .close]
    | .ok true => .send { ref := cidStr c, err := "" } :: dupsGo has cidStr rest
    | .ok false => dupsGo has cidStr rest

/-! ### lsFileStore.PostRun[cmds.CLI] (filestore.go lines 83-128)

The bridge goroutine pulls `res.Next()` until it fails; the values pulled
before the first failure are `items`, the failure itself is `term`.
Results with a non-empty `ErrorMsg` go to stderr and set the `errors`
flag; the others are printed (`FormatLong`, modelled by the opaque
`payload`) to stdout.  The failure is then classified, and finally the
aggregate error is reported if the flag was set. -/

/-- Modelled from the spec and the external packages: the pull failure of
`res.Next()`.  `ioEOF` is the `io.EOF` sentinel (whose `Error()` text is
the string EOF); `rcvdError` is the `cmds.ErrRcvdError` sentinel of the
external go-ipfs-cmds package, carrying the structured remote error that
`res.Error()` then returns (its own `Error()` text is a fixed string
distinct from EOF); `other` is any other error with its message. -/
inductive RemoteError : Type where
  | mk (message : String) (code : Nat)
deriving DecidableEq, Repr

/-- Message of a remote error. -/
def RemoteError.message : RemoteError → String
  | .mk m _ => m

/-- Code of a remote error. -/
def RemoteError.code : RemoteError → Nat
  | .mk _ c => c

/-- Pull failure returned by `res.Next()` (see `RemoteError`). -/
inductive PullErr : Type where
  | ioEOF
  | rcvdError (remote : RemoteError)
  | other (msg : String)
deriving DecidableEq, Repr

/-- What `err.Error()` returns for each modelled pull failure. -/
def PullErr.message : PullErr → String
  | .ioEOF => "EOF"
  | .rcvdError _ => "received command error"
  | .other m => m

/-- A call `re.SetError(msg, code)`; `cmdsutil.ErrNormal` is code 0. -/
structure SetErrorCall : Type where
  message : String
  code : Nat
deriving DecidableEq, Repr

/-- `cmdsutil.ErrNormal`. -/
def errNormal : Nat := 0

/-- State accumulated by the pull loop (filestore.go lines 95-110). -/
structure LsLoopState : Type where
  stdoutLines : List String
  stderrLines : List String
  errorsFlag : Bool
deriving DecidableEq, Repr

/-- The pull loop body: a result with non-empty `ErrorMsg` prints the
message to stderr and sets the `errors` flag; otherwise `FormatLong`
(the `payload`) goes to stdout (filestore.go lines 103-109). -/
def lsLoop : List ListRes → LsLoopState
  | [] => { stdoutLines := [], stderrLines := [], errorsFlag := false }
  | r :: rest =>
    let s := lsLoop rest
    if r.errorMsg ≠ "" then
      { stdoutLines := s.stdoutLines, stderrLines := r.errorMsg :: s.stderrLines,
        errorsFlag := true }
    else
      { stdoutLines := r.payload :: s.stdoutLines, stderrLines := s.stderrLines,
        errorsFlag := s.errorsFlag }

/-- Classification of the terminating pull failure (filestore.go lines
112-119): `err == io.EOF || err.Error() == "EOF"` is clean, the
`cmds.ErrRcvdError` sentinel reports the remote message and code, and
anything else is reported as a generic error with `ErrNormal`. -/
def lsClassify (term : PullErr) : List SetErrorCall :=
  if term = PullErr.ioEOF ∨ term.message = "EOF" then []
  else
    match term with
    | .rcvdError re => [{ message := re.message, code := re.code }]
    | t => [{ message := t.message, code := errNormal }]

/-- The aggregate soft-failure report (filestore.go line 122). -/
def aggregateEntriesErr : SetErrorCall :=
  { message := "errors while displaying some entries", code := errNormal }

/-- Observable outcome of the bridge goroutine. -/
structure BridgeOutcome : Type where
  stdoutLines : List String
  stderrLines : List String
  setErrors : List SetErrorCall
deriving DecidableEq, Repr

/-- The whole `lsFileStore.PostRun[cmds.CLI]` goroutine: run the pull
loop over the pulled items, classify the terminating failure, then report
the aggregate error if any soft failure was recorded (filestore.go lines
87-124). -/
def lsPostRun (items : List ListRes) (term : PullErr) : BridgeOutcome :=
  let s := lsLoop items
  { stdoutLines := s.stdoutLines
    stderrLines := s.stderrLines
    setErrors := lsClassify term ++ (if s.errorsFlag then [aggregateEntriesErr] else []) }

/-! ### Derived descriptions used to characterise the producers -/

/-- The result `perKeyActionToChan` computes for one arg: the synthetic
parse-error result, or the action's result. -/
def perKeyResult {κ : Type} (decode : String → Except String κ)
    (action : κ → ListRes) (arg : String) : ListRes :=
  match decode arg with
  | .error e => parseErrRes arg e
  | .ok c => action c

/-- The args whose result actually reaches the channel when only `k`
`select` boundaries observe "not done": unparseable args always get
through (their send is unchecked), a valid arg consumes one boundary and
the first valid arg past the budget is cut off together with everything
after it. -/
def perKeyProcessed {κ : Type} (decode : String → Except String κ) :
    List String → Nat → List String
  | [], _ => []
  | a :: rest, k =>
    match decode a with
    | .error _ => a :: perKeyProcessed decode rest k
    | .ok _ =>
      match k with
      | 0 => []
      | Nat.succ j => a :: perKeyProcessed decode rest j

/-! ### Concrete fixtures for witnesses and counterexamples -/

/-- A decoder for witnesses: the string bad is the one unparseable cid. -/
def wDecode : String → Except String String :=
  fun s => if s = "bad" then Except.error "invalid cid" else Except.ok s

/-- An action for witnesses: a successful record for the given cid. -/
def wAction : String → ListRes :=
  fun c => { status := .statusOk, errorMsg := "", payload := c }

/-- A decoder that rejects every string. -/
def allBadDecode : String → Except String Unit :=
  fun _ => Except.error "invalid cid"

/-- A trivial action over the unit cid type. -/
def unitAction : Unit → ListRes :=
  fun _ => { status := .statusOk, errorMsg := "", payload := "" }

/-- A lookup for witnesses: two known paths with sizes 10 and 20. -/
def wLookup : String → Except String DagReader :=
  fun p =>
    if p = "p1" then Except.ok { size := 10 }
    else if p = "p2" then Except.ok { size := 20 }
    else Except.error "merkledag: not found"

/-- The reader each known path of `wLookup` resolves to. -/
def wSizes : String → DagReader :=
  fun p => if p = "p1" then { size := 10 } else if p = "p2" then { size := 20 } else { size := 0 }

/-- A pulled batch for witnesses: two successes around one soft failure. -/
def wItems : List ListRes :=
  [ { status := .statusOk, errorMsg := "", payload := "rec1" },
    { status := .statusOtherError, errorMsg := "missing backing file", payload := "" },
    { status := .statusOk, errorMsg := "", payload := "rec2" } ]

/-! ## Helper lemmas -/

lemma uint64Mod_pos : 0 < uint64Mod := by
  norm_num [uint64Mod]

lemma catLoop_ok (lookup : String → Except String DagReader) (f : String → DagReader) :
    ∀ (paths : List String) (acc : List DagReader) (len : Nat),
      len < uint64Mod →
      (∀ p ∈ paths, lookup p = Except.ok (f p)) →
      catLoop lookup paths acc len =
        { readers := some (acc ++ paths.map f),
          length := (len + (paths.map (fun p => (f p).size)).sum) % uint64Mod,
          err := none } := by
  intro paths
  induction paths with
  | nil =>
    intro acc len hlen _
    simp [catLoop, Nat.mod_eq_of_lt hlen]
  | cons p rest ih =>
    intro acc len hlen h
    have hp := h p (List.mem_cons_self p rest)
    have hrest : ∀ q ∈ rest, lookup q = Except.ok (f q) :=
      fun q hq => h q (List.mem_cons_of_mem p hq)
    have hlt : (len + (f p).size) % uint64Mod < uint64Mod :=
      Nat.mod_lt _ uint64Mod_pos
    simp only [catLoop, hp]
    rw [ih (acc ++ [f p]) _ hlt hrest]
    simp [List.append_assoc, Nat.mod_add_mod, Nat.add_assoc]

lemma catLoop_err (lookup : String → Except String DagReader) (p : String) (e : String)
    (post : List String) (hp : lookup p = Except.error e) :
    ∀ (pre : List String) (acc : List DagReader) (len : Nat),
      (∀ q ∈ pre, ∃ r, lookup q = Except.ok r) →
      catLoop lookup (pre ++ p :: post) acc len =
        { readers := none, length := 0, err := some e } := by
  intro pre
  induction pre with
  | nil =>
    intro acc len _
    simp [catLoop, hp]
  | cons q pre ih =>
    intro acc len h
    obtain ⟨r, hr⟩ := h q (List.mem_cons_self q pre)
    simp only [List.cons_append, catLoop, hr]
    exact ih _ _ (fun q hq => h q (List.mem_cons_of_mem _ hq))

lemma perKeyGo_sent {κ : Type} (decode : String → Except String κ) (action : κ → ListRes) :
    ∀ (args : List String) (ca sel : Nat),
      sentValues (perKeyGo decode action ca args sel) =
        (perKeyProcessed decode args (ca - sel)).map (perKeyResult decode action) := by
  intro args
  induction args with
  | nil =>
    intro ca sel
    simp [perKeyGo, perKeyProcessed, sentValues]
  | cons a rest ih =>
    intro ca sel
    cases hd : decode a with
    | error e =>
      simp only [perKeyGo, hd, sentValues, perKeyProcessed, List.map_cons]
      rw [ih]
      simp [perKeyResult, hd]
    | ok c =>
      by_cases hsel : sel < ca
      · have hsub : ca - sel = Nat.succ (ca - (sel + 1)) := by omega
        simp only [perKeyGo, hd, if_pos hsel, sentValues, perKeyProcessed, hsub, List.map_cons]
        rw [ih]
        simp [perKeyResult, hd]
      · have hsub : ca - sel = 0 := by omega
        simp [perKeyGo, hd, if_neg hsel, sentValues, perKeyProcessed, hsub]

lemma perKeyGo_shape {κ : Type} (decode : String → Except String κ) (action : κ → ListRes) :
    ∀ (args : List String) (ca sel : Nat),
      perKeyGo decode action ca args sel =
        (sentValues (perKeyGo decode action ca args sel)).map ChanEvent.send ++
          [ChanEvent.close] := by
  intro args
  induction args with
  | nil =>
    intro ca sel
    simp [perKeyGo, sentValues]
  | cons a rest ih =>
    intro ca sel
    cases hd : decode a with
    | error e =>
      simp only [perKeyGo, hd, sentValues, List.map_cons, List.cons_append]
      rw [← ih]
    | ok c =>
      by_cases hsel : sel < ca
      · simp only [perKeyGo, hd, if_pos hsel, sentValues, List.map_cons, List.cons_append]
        rw [← ih]
      · simp [perKeyGo, hd, if_neg hsel, sentValues]

lemma perKeyProcessed_of_no_cancel {κ : Type} (decode : String → Except String κ) :
    ∀ (args : List String) (k : Nat), args.length ≤ k →
      perKeyProcessed decode args k = args := by
  intro args
  induction args with
  | nil =>
    intro k _
    simp [perKeyProcessed]
  | cons a rest ih =>
    intro k h
    simp only [List.length_cons] at h
    cases hd : decode a with
    | error e =>
      simp only [perKeyProcessed, hd]
      rw [ih k (by omega)]
    | ok c =>
      match k, h with
      | Nat.succ j, h =>
        simp only [perKeyProcessed, hd]
        rw [ih j (by omega)]

lemma listResGo_sent :
    ∀ (results : List ListRes) (ca sel : Nat),
      sentValues (listResGo ca results sel) = results.take (ca - sel) := by
  intro results
  induction results with
  | nil =>
    intro ca sel
    simp [listResGo, sentValues]
  | cons r rest ih =>
    intro ca sel
    by_cases hsel : sel < ca
    · have hsub : ca - sel = Nat.succ (ca - (sel + 1)) := by omega
      simp only [listResGo, if_pos hsel, sentValues, hsub, List.take_succ_cons]
      rw [ih]
    · have hsub : ca - sel = 0 := by omega
      simp [listResGo, if_neg hsel, sentValues, hsub]

lemma listResGo_shape :
    ∀ (results : List ListRes) (ca sel : Nat),
      listResGo ca results sel =
        (sentValues (listResGo ca results sel)).map ChanEvent.send ++ [ChanEvent.close] := by
  intro results
  induction results with
  | nil =>
    intro ca sel
    simp [listResGo, sentValues]
  | cons r rest ih =>
    intro ca sel
    by_cases hsel : sel < ca
    · simp only [listResGo, if_pos hsel, sentValues, List.map_cons, List.cons_append]
      rw [← ih]
    · simp [listResGo, if_neg hsel, sentValues]

lemma dupsGo_shape {κ : Type} (has : κ → Except String Bool) (cidStr : κ → String) :
    ∀ (keys : List κ),
      dupsGo has cidStr keys =
        (sentValues (dupsGo has cidStr keys)).map ChanEvent.send ++ [ChanEvent.close] := by
  intro keys
  induction keys with
  | nil =>
    simp [dupsGo, sentValues]
  | cons c rest ih =>
    cases hc : has c with
    | error e =>
      simp [dupsGo, hc, sentValues]
    | ok b =>
      cases b with
      | true =>
        simp only [dupsGo, hc, sentValues, List.map_cons, List.cons_append]
        rw [← ih]
      | false =>
        simp only [dupsGo, hc]
        exact ih

lemma closeCount_sends_close {α : Type} (vs : List α) :
    closeCount (vs.map ChanEvent.send ++ [ChanEvent.close]) = 1 := by
  induction vs with
  | nil => simp [closeCount]
  | cons v rest ih => simpa [closeCount] using ih

lemma lsLoop_spec :
    ∀ (items : List ListRes),
      lsLoop items =
        { stdoutLines := (items.filter (fun r => r.errorMsg == "")).map ListRes.payload,
          stderrLines := (items.filter (fun r => !(r.errorMsg == ""))).map ListRes.errorMsg,
          errorsFlag := items.any (fun r => !(r.errorMsg == "")) } := by
  intro items
  induction items with
  | nil => simp [lsLoop]
  | cons r rest ih =>
    by_cases h : r.errorMsg = ""
    · simp [lsLoop, ih, h]
    · simp [lsLoop, ih, h]

/-! ## Claim theorems -/

/-- C1 (counterexample): the claim says a declared length of 0 selects the
direct unthrottled copy; in the code the branch
`res.Length() > 0 && res.Length() < progressBarMinSize` is false at 0, so
the direct copy path is not taken. -/
theorem catPostRunPlan_zero_not_direct : catPostRunPlan 0 ≠ CatPlan.directCopy := by
  decide

/-- C1 (amended): a declared length of 0 selects the progress-wrapped
path of `CatCmd.PostRun[cmds.CLI]`: the direct copy requires a strictly
positive length, so a zero length does not suppress the progress display. -/
theorem catPostRunPlan_zero_progress : catPostRunPlan 0 = CatPlan.progressWrapped := by
  decide

/-- C2: the threshold constant is 8 × 1024 × 1024, and for every strictly
positive declared length the PostRun goroutine selects the direct copy
exactly when the length is strictly below the threshold, and the
progress-wrapped copy exactly when the length is at or above it. -/
theorem catPostRunPlan_threshold :
    progressBarMinSize = 8 * 1024 * 1024 ∧
    ∀ n : Nat, 0 < n →
      (catPostRunPlan n = CatPlan.directCopy ↔ n < progressBarMinSize) ∧
      (catPostRunPlan n = CatPlan.progressWrapped ↔ progressBarMinSize ≤ n) := by
  refine ⟨by norm_num [progressBarMinSize], ?_⟩
  intro n hn
  unfold catPostRunPlan
  by_cases hlt : n < progressBarMinSize
  · rw [if_pos ⟨hn, hlt⟩]
    constructor
    · exact ⟨fun _ => hlt, fun _ => rfl⟩
    · constructor
      · intro h
        cases h
      · intro h
        exact absurd h (not_le.mpr hlt)
  · rw [if_neg (by tauto)]
    constructor
    · constructor
      · intro h
        cases h
      · intro h
        exact absurd h hlt
    · exact ⟨fun _ => not_lt.mp hlt, fun _ => rfl⟩

/-- C2 (witness): 7 MiB yields the direct copy, 9 MiB the progress-wrapped
copy. -/
theorem catPostRunPlan_threshold_witness :
    catPostRunPlan (7 * 1024 * 1024) = CatPlan.directCopy ∧
    catPostRunPlan (9 * 1024 * 1024) = CatPlan.progressWrapped := by
  constructor
  · exact (catPostRunPlan_threshold.2 (7 * 1024 * 1024) (by decide)).1.mpr (by decide)
  · exact (catPostRunPlan_threshold.2 (9 * 1024 * 1024) (by decide)).2.mpr (by decide)

/-- C6: when every path resolves, `cat` returns the readers in input-path
order and a total length equal to the exact sum of the individual declared
sizes (the `uint64` accumulator does not wrap as long as the sum is below
2^64). -/
theorem cat_sums_sizes (lookup : String → Except String DagReader) (f : String → DagReader)
    (paths : List String)
    (hok : ∀ p ∈ paths, lookup p = Except.ok (f p))
    (hs : (paths.map (fun p => (f p).size)).sum < uint64Mod) :
    cat lookup paths =
      { readers := some (paths.map f),
        length := (paths.map (fun p => (f p).size)).sum,
        err := none } := by
  unfold cat
  rw [catLoop_ok lookup f paths [] 0 uint64Mod_pos hok]
  simp [Nat.mod_eq_of_lt hs]

/-- C6 (witness): paths of sizes 10 and 20 yield the two readers in order
and total length 30. -/
theorem cat_sums_sizes_witness :
    (∀ p ∈ ["p1", "p2"], wLookup p = Except.ok (wSizes p)) ∧
    cat wLookup ["p1", "p2"] =
      { readers := some (["p1", "p2"].map wSizes),
        length := (["p1", "p2"].map (fun p => (wSizes p).size)).sum,
        err := none } := by
  have hok : ∀ p ∈ ["p1", "p2"], wLookup p = Except.ok (wSizes p) := by
    intro p hp
    simp only [List.mem_cons, List.mem_singleton] at hp
    rcases hp with rfl | rfl | h
    · rfl
    · rfl
    · cases h
  exact ⟨hok, cat_sums_sizes wLookup wSizes ["p1", "p2"] hok (by decide)⟩

/-- C7: if any path fails to resolve, `cat` aborts at that path and
returns exactly `(nil, 0, err)` — no partial reader list, zero length —
regardless of how many earlier paths succeeded. -/
theorem cat_fail_fast (lookup : String → Except String DagReader)
    (pre post : List String) (p e : String)
    (hpre : ∀ q ∈ pre, ∃ r, lookup q = Except.ok r)
    (hp : lookup p = Except.error e) :
    cat lookup (pre ++ p :: post) = { readers := none, length := 0, err := some e } :=
  catLoop_err lookup p e post hp pre [] 0 hpre

/-- C7 (witness): with the first path resolving and the second failing,
`cat` returns the error with a nil reader list and zero length. -/
theorem cat_fail_fast_witness :
    (∀ q ∈ ["p1"], ∃ r, wLookup q = Except.ok r) ∧
    cat wLookup (["p1"] ++ "nope" :: ["p2"]) =
      { readers := none, length := 0, err := some "merkledag: not found" } := by
  have hpre : ∀ q ∈ ["p1"], ∃ r, wLookup q = Except.ok r := by
    intro q hq
    simp only [List.mem_singleton] at hq
    subst hq
    exact ⟨{ size := 10 }, rfl⟩
  exact ⟨hpre, cat_fail_fast wLookup ["p1"] ["p2"] "nope" "merkledag: not found" hpre rfl⟩

/-- C3: with a cancellation signal that never fires during the run, the
per-key dispatcher delivers exactly one Result per input string, in input
order — each valid identifier mapped to its action's Result and each
unparseable string to its synthetic error Result, with no reordering,
duplication or omission. -/
theorem perKeyActionToChan_order {κ : Type} (decode : String → Except String κ)
    (action : κ → ListRes) (args : List String) (cancelAfter : Nat)
    (h : args.length ≤ cancelAfter) :
    sentValues (perKeyActionToChan decode action args cancelAfter) =
      args.map (perKeyResult decode action) := by
  unfold perKeyActionToChan
  rw [perKeyGo_sent decode action args cancelAfter 0, Nat.sub_zero,
    perKeyProcessed_of_no_cancel decode args cancelAfter h]

/-- C3 (witness): inputs A, bad, B yield the action Results for A and B
around the synthetic error for bad, in input order. -/
theorem perKeyActionToChan_order_witness :
    (["A", "bad", "B"] : List String).length ≤ 3 ∧
    sentValues (perKeyActionToChan wDecode wAction ["A", "bad", "B"] 3) =
      ["A", "bad", "B"].map (perKeyResult wDecode wAction) ∧
    ["A", "bad", "B"].map (perKeyResult wDecode wAction) =
      [ { status := .statusOk, errorMsg := "", payload := "A" },
        { status := .statusOtherError, errorMsg := "bad: invalid cid", payload := "" },
        { status := .statusOk, errorMsg := "", payload := "B" } ] :=
  ⟨by decide,
   perKeyActionToChan_order wDecode wAction ["A", "bad", "B"] 3 (by decide),
   by decide⟩

/-- C4: a string that fails cid decoding makes the dispatcher send a
synthetic StatusOtherError Result whose message is the original string
followed by the parse error, the action is not invoked for it (the
invocation list is unchanged), and the remaining batch continues as if
the bad string were removed. -/
theorem perKeyActionToChan_parse_failure {κ : Type} (decode : String → Except String κ)
    (action : κ → ListRes) (arg : String) (rest : List String)
    (cancelAfter : Nat) (e : String) (h : decode arg = Except.error e) :
    perKeyActionToChan decode action (arg :: rest) cancelAfter =
      ChanEvent.send { status := FsStatus.statusOtherError,
                       errorMsg := arg ++ ": " ++ e, payload := "" }
        :: perKeyActionToChan decode action rest cancelAfter ∧
    perKeyInvoked decode cancelAfter (arg :: rest) 0 =
      perKeyInvoked decode cancelAfter rest 0 := by
  constructor
  · simp [perKeyActionToChan, perKeyGo, h, parseErrRes]
  · simp [perKeyInvoked, h]

/-- C4 (witness): the bad input is turned into a synthetic error Result
and the batch continues with the remaining input. -/
theorem perKeyActionToChan_parse_failure_witness :
    wDecode "bad" = Except.error "invalid cid" ∧
    (perKeyActionToChan wDecode wAction ["bad", "A"] 4 =
      ChanEvent.send { status := FsStatus.statusOtherError,
                       errorMsg := "bad" ++ ": " ++ "invalid cid", payload := "" }
        :: perKeyActionToChan wDecode wAction ["A"] 4 ∧
     perKeyInvoked wDecode 4 ["bad", "A"] 0 = perKeyInvoked wDecode 4 ["A"] 0) :=
  ⟨rfl, perKeyActionToChan_parse_failure wDecode wAction "bad" ["A"] 4 "invalid cid" rfl⟩

/-- C5 (counterexample): the claim says cancellation is checked at every
send on the output channel and at most one more buffered item is emitted
once it fires; but the synthetic parse-error send in `perKeyActionToChan`
is a plain send with no `ctx.Done()` check, so with the context already
done before the goroutine starts, two unparseable inputs still produce
two sends. -/
theorem perKeyActionToChan_unchecked_error_send :
    sentValues (perKeyActionToChan allBadDecode unitAction ["b1", "b2"] 0) =
      [parseErrRes "b1" "invalid cid", parseErrRes "b2" "invalid cid"] ∧
    ¬ (sentValues (perKeyActionToChan allBadDecode unitAction ["b1", "b2"] 0)).length ≤ 1 := by
  constructor
  · rfl
  · decide

/-- C5 (amended): in `listResToChan` cancellation is checked at every
send boundary — the output is exactly the results delivered before the
signal fires, followed by the close.  In `perKeyActionToChan`
cancellation is checked at every action-result send boundary but not at
the synthetic parse-error send: the output is exactly the per-key results
of the inputs up to but excluding the first valid identifier past the
cancellation point (unparseable inputs before it still get through),
followed by the close. -/
theorem cancellation_checked_at_select_sends :
    (∀ (results : List ListRes) (cancelAfter : Nat),
        sentValues (listResToChan results cancelAfter) = results.take cancelAfter ∧
        listResToChan results cancelAfter =
          (results.take cancelAfter).map ChanEvent.send ++ [ChanEvent.close]) ∧
    (∀ (κ : Type) (decode : String → Except String κ) (action : κ → ListRes)
        (args : List String) (cancelAfter : Nat),
        sentValues (perKeyActionToChan decode action args cancelAfter) =
          (perKeyProcessed decode args cancelAfter).map (perKeyResult decode action) ∧
        perKeyActionToChan decode action args cancelAfter =
          ((perKeyProcessed decode args cancelAfter).map (perKeyResult decode action)).map
            ChanEvent.send ++ [ChanEvent.close]) := by
  constructor
  · intro results cancelAfter
    have hs := listResGo_sent results cancelAfter 0
    rw [Nat.sub_zero] at hs
    have hsh := listResGo_shape results cancelAfter 0
    rw [hs] at hsh
    exact ⟨hs, hsh⟩
  · intro κ decode action args cancelAfter
    have hs := perKeyGo_sent decode action args cancelAfter 0
    rw [Nat.sub_zero] at hs
    have hsh := perKeyGo_shape decode action args cancelAfter 0
    rw [hs] at hsh
    exact ⟨hs, hsh⟩

/-- C8: in the ls bridge, every pulled Result with a non-empty error
message yields a stderr diagnostic and sets the soft-failure flag while
pulling continues; on a clean end of stream the successful records have
all been printed and the only reported error is the aggregate
"errors while displaying some entries", present exactly when some Result
carried an error message. -/
theorem lsPostRun_soft_failures (items : List ListRes) (term : PullErr)
    (hclean : term = PullErr.ioEOF ∨ term.message = "EOF") :
    (lsPostRun items term).stderrLines =
      (items.filter (fun r => !(r.errorMsg == ""))).map ListRes.errorMsg ∧
    (lsPostRun items term).stdoutLines =
      (items.filter (fun r => r.errorMsg == "")).map ListRes.payload ∧
    (lsPostRun items term).setErrors =
      (if items.any (fun r => !(r.errorMsg == "")) then [aggregateEntriesErr] else []) := by
  have hcl : lsClassify term = [] := by
    unfold lsClassify
    rw [if_pos hclean]
  unfold lsPostRun
  rw [lsLoop_spec items]
  simp [hcl]

/-- C8 (witness): a clean stream with one soft failure between two
successes prints both records, one diagnostic, and the aggregate error. -/
theorem lsPostRun_soft_failures_witness :
    (PullErr.ioEOF = PullErr.ioEOF ∨ PullErr.message PullErr.ioEOF = "EOF") ∧
    ((lsPostRun wItems PullErr.ioEOF).stderrLines =
       (wItems.filter (fun r => !(r.errorMsg == ""))).map ListRes.errorMsg ∧
     (lsPostRun wItems PullErr.ioEOF).stdoutLines =
       (wItems.filter (fun r => r.errorMsg == "")).map ListRes.payload ∧
     (lsPostRun wItems PullErr.ioEOF).setErrors =
       (if wItems.any (fun r => !(r.errorMsg == "")) then [aggregateEntriesErr] else [])) ∧
    (lsPostRun wItems PullErr.ioEOF).stderrLines = ["missing backing file"] ∧
    (lsPostRun wItems PullErr.ioEOF).stdoutLines = ["rec1", "rec2"] ∧
    (lsPostRun wItems PullErr.ioEOF).setErrors = [aggregateEntriesErr] :=
  ⟨Or.inl rfl, lsPostRun_soft_failures wItems PullErr.ioEOF (Or.inl rfl),
   by decide, by decide, by decide⟩

/-- C9: when the pull itself fails the bridge classifies the failure three
ways: an end-of-data failure (the `io.EOF` sentinel, or any error whose
message is EOF) sets no error from the pull; the received-remote-error
sentinel reports the remote message and code; anything else reports a
generic error with `ErrNormal`.  With no soft failures recorded, the
bridge's reported errors are exactly this classification. -/
theorem lsPostRun_pull_classification :
    (∀ term : PullErr, (term = PullErr.ioEOF ∨ term.message = "EOF") →
       lsClassify term = []) ∧
    (∀ re : RemoteError,
       lsClassify (PullErr.rcvdError re) = [{ message := re.message, code := re.code }]) ∧
    (∀ msg : String, msg ≠ "EOF" →
       lsClassify (PullErr.other msg) = [{ message := msg, code := errNormal }]) ∧
    (∀ (items : List ListRes) (term : PullErr),
       (lsLoop items).errorsFlag = false →
       (lsPostRun items term).setErrors = lsClassify term) := by
  refine ⟨?_, ?_, ?_, ?_⟩
  · intro term h
    unfold lsClassify
    rw [if_pos h]
  · intro re
    have hne : ¬(PullErr.rcvdError re = PullErr.ioEOF ∨
        (PullErr.rcvdError re).message = "EOF") := by
      rintro (h | h)
      · cases h
      · simp only [PullErr.message] at h
        exact absurd h (by decide)
    unfold lsClassify
    rw [if_neg hne]
  · intro msg hmsg
    have hne : ¬(PullErr.other msg = PullErr.ioEOF ∨
        (PullErr.other msg).message = "EOF") := by
      rintro (h | h)
      · cases h
      · exact hmsg h
    unfold lsClassify
    rw [if_neg hne]
    rfl
  · intro items term h
    unfold lsPostRun
    simp [h]

/-- C9 (witness): the three classifications at concrete failures. -/
theorem lsPostRun_pull_classification_witness :
    lsClassify PullErr.ioEOF = [] ∧
    lsClassify (PullErr.rcvdError (RemoteError.mk "remote failure" 2)) =
      [{ message := "remote failure", code := 2 }] ∧
    lsClassify (PullErr.other "connection reset") =
      [{ message := "connection reset", code := errNormal }] ∧
    (lsPostRun [] (PullErr.other "connection reset")).setErrors =
      lsClassify (PullErr.other "connection reset") :=
  ⟨lsPostRun_pull_classification.1 PullErr.ioEOF (Or.inl rfl),
   lsPostRun_pull_classification.2.1 (RemoteError.mk "remote failure" 2),
   lsPostRun_pull_classification.2.2.1 "connection reset" (by decide),
   lsPostRun_pull_classification.2.2.2 [] (PullErr.other "connection reset") rfl⟩

/-- C10: each producer goroutine (per-key dispatch, list-all polling and
the dups enumeration) closes its output channel exactly once, as the last
event of its trace, on every exit path — input exhaustion, a nil from the
generator, cancellation, or an internal error. -/
theorem producers_close_exactly_once :
    (∀ (κ : Type) (decode : String → Except String κ) (action : κ → ListRes)
        (args : List String) (cancelAfter : Nat),
        closeCount (perKeyActionToChan decode action args cancelAfter) = 1 ∧
        (perKeyActionToChan decode action args cancelAfter).getLast? =
          some ChanEvent.close) ∧
    (∀ (results : List ListRes) (cancelAfter : Nat),
        closeCount (listResToChan results cancelAfter) = 1 ∧
        (listResToChan results cancelAfter).getLast? = some ChanEvent.close) ∧
    (∀ (κ : Type) (has : κ → Except String Bool) (cidStr : κ → String) (keys : List κ),
        closeCount (dupsGo has cidStr keys) = 1 ∧
        (dupsGo has cidStr keys).getLast? = some ChanEvent.close) := by
  refine ⟨?_, ?_, ?_⟩
  · intro κ decode action args cancelAfter
    have h := perKeyGo_shape decode action args cancelAfter 0
    unfold perKeyActionToChan
    rw [h]
    exact ⟨closeCount_sends_close _, List.getLast?_concat _⟩
  · intro results cancelAfter
    have h := listResGo_shape results cancelAfter 0
    unfold listResToChan
    rw [h]
    exact ⟨closeCount_sends_close _, List.getLast?_concat _⟩
  · intro κ has cidStr keys
    have h := dupsGo_shape has cidStr keys
    rw [h]
    exact ⟨closeCount_sends_close _, List.getLast?_concat _⟩

end GoIpfs
